import Mathlib

set_option maxRecDepth 8192

/-! Formal model of the storage crate: the bump allocator, the free list
    allocator, the picker combinator, reference counting, the global
    storage slot, the pad combinator and the default trait methods.
    Machine integers of type usize are modelled as Nat together with
    explicit reductions modulo 2 to the 64, and fallible operations
    return Except values. -/

namespace StorageModel

/-- Number of values of the usize type; the machine word is 64 bits wide. -/
def USIZE : Nat := 2 ^ 64

/-- Bitwise complement of a usize value, written as a bang in the source. -/
def usizeNot (x : Nat) : Nat := (USIZE - 1) - x % USIZE

/-- Layout of an allocation request: a size in bytes together with a
    power-of-two alignment, as in core alloc Layout. -/
structure Layout where
  size : Nat
  align : Nat
  deriving DecidableEq, Repr

/-- Allocation error carrying the offending layout. -/
structure AllocErr where
  layout : Layout
  deriving DecidableEq, Repr

/-- Result of an allocation: the handle of the block plus its usable size. -/
structure MemoryBlock where
  handle : Nat
  size : Nat
  deriving DecidableEq, Repr

/-! Bump allocator, from bump.rs. The state keeps the address of the
    backing region (the backend pointer for the start handle), the
    rounded maximal alignment MAX_ALIGN_POW2 and the current offset
    counter that counts down from the top of the region. -/

structure BumpState where
  base : Nat
  maxAlignPow2 : Nat
  offset : Nat
  deriving DecidableEq, Repr

/-- Translation of BumpStorage get: the backend address of the start
    handle plus the offset stored inside the bump handle. -/
def BumpState.get (s : BumpState) (h : Nat) : Nat := s.base + h

/-- Translation of BumpStorage allocate_nonempty: reject alignments above
    MAX_ALIGN_POW2, subtract the size with an underflow check, then round
    the offset down with the mask of the alignment. The shared variant
    shared_allocate_nonempty performs the same arithmetic inside one
    successful fetch_update step. -/
def bump_allocate_nonempty (s : BumpState) (L : Layout) :
    Except AllocErr (MemoryBlock × BumpState) :=
  if s.maxAlignPow2 < L.align then .error ⟨L⟩
  else if s.offset < L.size then .error ⟨L⟩
  else .ok (⟨(s.offset - L.size) &&& usizeNot (L.align - 1),
              s.offset - ((s.offset - L.size) &&& usizeNot (L.align - 1))⟩,
            { s with offset := (s.offset - L.size) &&& usizeNot (L.align - 1) })

/-- Translation of BumpStorage deallocate_nonempty: a no-op. -/
def bump_deallocate_nonempty (s : BumpState) (_h : Nat) (_L : Layout) : BumpState := s

/-- Key arithmetic fact: masking with the complement of a low-bit mask is
    the same as rounding down to a multiple of the power of two. -/
theorem land_two_pow_sub (x k n : Nat) (hk : k ≤ n) (hx : x < 2 ^ n) :
    x &&& (2 ^ n - 2 ^ k) = x - x % 2 ^ k := by
  have hmask : 2 ^ n - 2 ^ k = (2 ^ (n - k) - 1) <<< k := by
    rw [Nat.shiftLeft_eq, Nat.sub_mul, one_mul, ← pow_add]
    congr 2
    omega
  have hdiv : x - x % 2 ^ k = (x >>> k) <<< k := by
    rw [Nat.shiftRight_eq_div_pow, Nat.shiftLeft_eq]
    have h1 := Nat.div_add_mod x (2 ^ k)
    have h2 : 2 ^ k * (x / 2 ^ k) = x / 2 ^ k * 2 ^ k := Nat.mul_comm _ _
    omega
  rw [hmask, hdiv]
  apply Nat.eq_of_testBit_eq
  intro i
  rw [Nat.testBit_land, Nat.testBit_shiftLeft, Nat.testBit_shiftLeft, Nat.testBit_shiftRight,
    Nat.testBit_two_pow_sub_one]
  by_cases hki : k ≤ i
  · have hadd : k + (i - k) = i := by omega
    rw [hadd]
    by_cases hin : i < n
    · have h1 : i - k < n - k := by omega
      simp [ge_iff_le, hki, h1]
    · have hxf : x.testBit i = false :=
        Nat.testBit_lt_two_pow (lt_of_lt_of_le hx (Nat.pow_le_pow_right (by omega) (by omega)))
      have h1 : ¬ (i - k < n - k) := by omega
      simp [ge_iff_le, hki, h1, hxf]
  · simp [ge_iff_le, hki]

/-- Complement of the alignment mask, rewritten without bitwise negation. -/
theorem usizeNot_align_sub_one (k : Nat) (hk : k ≤ 64) :
    usizeNot (2 ^ k - 1) = 2 ^ 64 - 2 ^ k := by
  have h1 : 2 ^ k ≤ 2 ^ 64 := Nat.pow_le_pow_right (by omega) hk
  have h2 : (2 ^ k - 1) % USIZE = 2 ^ k - 1 := by
    apply Nat.mod_eq_of_lt
    have : 1 ≤ 2 ^ k := Nat.one_le_two_pow
    show 2 ^ k - 1 < 2 ^ 64
    omega
  rw [usizeNot, h2]
  show 2 ^ 64 - 1 - (2 ^ k - 1) = 2 ^ 64 - 2 ^ k
  have : 1 ≤ 2 ^ k := Nat.one_le_two_pow
  omega

/-- C5: bump allocation arithmetic. The allocation fails exactly when the
    subtraction underflows or the requested alignment exceeds the rounded
    MAX_ALIGN of the backend; on success the handle equals the new offset
    obtained by masking, which is the old offset minus the size rounded
    down to a multiple of the alignment, the block size is the old offset
    minus the new offset, and deallocation leaves the state unchanged. -/
theorem bump_allocate_spec (s : BumpState) (L : Layout) (k : Nat)
    (halign : L.align = 2 ^ k) (hk : k ≤ 64) (hoff : s.offset < USIZE) :
    ((∃ e, bump_allocate_nonempty s L = .error e) ↔
        (s.maxAlignPow2 < L.align ∨ s.offset < L.size)) ∧
    (∀ e, bump_allocate_nonempty s L = .error e → e = ⟨L⟩) ∧
    (∀ blk s', bump_allocate_nonempty s L = .ok (blk, s') →
        blk.handle = ((s.offset - L.size) &&& usizeNot (L.align - 1)) ∧
        blk.handle = (s.offset - L.size) - (s.offset - L.size) % L.align ∧
        blk.size = s.offset - blk.handle ∧
        s' = { s with offset := blk.handle }) ∧
    (∀ h L2, bump_deallocate_nonempty s h L2 = s) := by
  have hmasked : ((s.offset - L.size) &&& usizeNot (L.align - 1))
      = (s.offset - L.size) - (s.offset - L.size) % L.align := by
    rw [halign, usizeNot_align_sub_one k hk]
    refine land_two_pow_sub _ k 64 hk ?_
    unfold USIZE at hoff
    omega
  refine ⟨⟨?_, ?_⟩, ?_, ?_, fun h L2 => rfl⟩
  · rintro ⟨e, he⟩
    unfold bump_allocate_nonempty at he
    split at he
    · left; assumption
    · split at he
      · right; assumption
      · exact absurd he (by simp)
  · intro hcases
    unfold bump_allocate_nonempty
    rcases hcases with hal | hsz
    · simp [hal]
    · split
      · exact ⟨⟨L⟩, rfl⟩
      · simp [hsz]
  · intro e he
    unfold bump_allocate_nonempty at he
    split at he
    · simp only [Except.error.injEq] at he
      exact he.symm
    · split at he
      · simp only [Except.error.injEq] at he
        exact he.symm
      · exact absurd he (by simp)
  · intro blk s' hok
    unfold bump_allocate_nonempty at hok
    split at hok
    · exact absurd hok (by simp)
    · split at hok
      · exact absurd hok (by simp)
      · simp only [Except.ok.injEq, Prod.mk.injEq] at hok
        obtain ⟨hblk, hs'⟩ := hok
        subst hblk hs'
        exact ⟨rfl, hmasked, rfl, rfl⟩

/-- Witness for C5 at a concrete state: offset 10, request of size 3 and
    alignment 4, giving the rounded-down handle 4 and block size 6. -/
theorem bump_allocate_spec_witness :
    ((⟨3, 4⟩ : Layout).align = 2 ^ 2 ∧ 2 ≤ 64 ∧ (⟨0, 8, 10⟩ : BumpState).offset < USIZE) ∧
    (∀ blk s', bump_allocate_nonempty ⟨0, 8, 10⟩ ⟨3, 4⟩ = .ok (blk, s') →
        blk.handle = ((10 - (3:Nat)) &&& usizeNot (4 - 1)) ∧
        blk.handle = (10 - (3:Nat)) - (10 - (3:Nat)) % 4 ∧
        blk.size = 10 - blk.handle ∧
        s' = { (⟨0, 8, 10⟩ : BumpState) with offset := blk.handle }) ∧
    bump_allocate_nonempty ⟨0, 8, 10⟩ ⟨3, 4⟩ = .ok (⟨4, 6⟩, ⟨0, 8, 4⟩) := by
  refine ⟨⟨rfl, by omega, by decide⟩, ?_, ?_⟩
  · exact (bump_allocate_spec ⟨0, 8, 10⟩ ⟨3, 4⟩ 2 rfl (by omega) (by decide)).2.2.1
  · rfl

/-- C1: handle stability of the bump allocator. After a first successful
    allocation returns a handle, a second allocation neither changes the
    address the handle resolves to (get is unchanged on every handle,
    since the backing region and its base never move) nor hands out a
    block overlapping the first one: the second block ends exactly where
    the first block starts. -/
theorem bump_handle_stability
    (s s1 s2 : BumpState) (L1 L2 : Layout) (blk1 blk2 : MemoryBlock)
    (h1 : bump_allocate_nonempty s L1 = .ok (blk1, s1))
    (h2 : bump_allocate_nonempty s1 L2 = .ok (blk2, s2)) :
    BumpState.get s2 blk1.handle = BumpState.get s blk1.handle ∧
    (∀ h : Nat, BumpState.get s2 h = BumpState.get s h) ∧
    blk2.handle + blk2.size = blk1.handle ∧
    (∀ a, blk2.handle ≤ a → a < blk2.handle + blk2.size → a < blk1.handle) := by
  unfold bump_allocate_nonempty at h1 h2
  split at h1
  · exact absurd h1 (by simp)
  split at h1
  · exact absurd h1 (by simp)
  simp only [Except.ok.injEq, Prod.mk.injEq] at h1
  obtain ⟨hblk1, hs1⟩ := h1
  split at h2
  · exact absurd h2 (by simp)
  split at h2
  · exact absurd h2 (by simp)
  simp only [Except.ok.injEq, Prod.mk.injEq] at h2
  obtain ⟨hblk2, hs2⟩ := h2
  subst hs1
  subst hs2
  subst hblk1
  subst hblk2
  have hle : (((((s.offset - L1.size) &&& usizeNot (L1.align - 1))) - L2.size)
        &&& usizeNot (L2.align - 1))
      ≤ ((s.offset - L1.size) &&& usizeNot (L1.align - 1)) :=
    le_trans Nat.and_le_left (Nat.sub_le _ _)
  refine ⟨rfl, fun h => rfl, ?_, ?_⟩
  · dsimp only
    omega
  · intro a ha1 ha2
    dsimp only at ha1 ha2 ⊢
    omega

/-- Witness for C1: two concrete successful allocations on the bump state
    with offset 10; the second block ends exactly at the first handle. -/
theorem bump_handle_stability_witness :
    bump_allocate_nonempty ⟨0, 8, 10⟩ ⟨3, 4⟩ = .ok (⟨4, 6⟩, ⟨0, 8, 4⟩) ∧
    bump_allocate_nonempty ⟨0, 8, 4⟩ ⟨2, 2⟩ = .ok (⟨2, 2⟩, ⟨0, 8, 2⟩) ∧
    (BumpState.get ⟨0, 8, 2⟩ 4 = BumpState.get ⟨0, 8, 10⟩ 4 ∧
      (∀ h : Nat, BumpState.get ⟨0, 8, 2⟩ h = BumpState.get ⟨0, 8, 10⟩ h) ∧
      2 + 2 = 4 ∧
      (∀ a : Nat, 2 ≤ a → a < 2 + 2 → a < 4)) := by
  refine ⟨rfl, rfl, ?_⟩
  exact bump_handle_stability ⟨0, 8, 10⟩ ⟨0, 8, 4⟩ ⟨0, 8, 2⟩ ⟨3, 4⟩ ⟨2, 2⟩ ⟨4, 6⟩ ⟨2, 2⟩ rfl rfl

/-! Resizing, from defaults.rs and the grow and shrink methods of bump.rs.
    The model instruments the copy of bytes between the old and the new
    block: the copied field records the length passed to the call of
    copy_from_nonoverlapping, and the deallocated field records the calls
    of deallocate. The shared variants of grow and shrink in bump.rs run
    the same code through the shared allocation path, so they are
    modelled by the same functions. -/

/-- Translation of the default Storage allocate method at the bump
    storage: a zero-size request short-circuits to the dangling handle,
    which for a bump handle is the maximal usize value. -/
def bump_allocate (s : BumpState) (L : Layout) : Except AllocErr (MemoryBlock × BumpState) :=
  if L.size = 0 then .ok (⟨USIZE - 1, 0⟩, s) else bump_allocate_nonempty s L

/-- Translation of the default allocate_zeroed method at the bump
    storage: allocate, then write zero bytes over the block; the zero
    bytes are not tracked by the model, so the block and the state agree
    with plain allocate. -/
def bump_allocate_zeroed (s : BumpState) (L : Layout) : Except AllocErr (MemoryBlock × BumpState) :=
  bump_allocate s L

/-- Translation of the default deallocate method at the bump storage. -/
def bump_deallocate (s : BumpState) (h : Nat) (L : Layout) : BumpState :=
  if L.size = 0 then s else bump_deallocate_nonempty s h L

/-- Result of a resize operation together with its instrumentation. -/
structure ResizeResult where
  block : MemoryBlock
  state : BumpState
  copied : Nat
  deallocated : List (Nat × Layout)
  deriving DecidableEq, Repr

/-- Translation of the free function grow of defaults.rs at the bump
    storage: allocate the new layout, copy all bytes of the old layout,
    deallocate the old handle. -/
def defaults_grow (s : BumpState) (h : Nat) (old new : Layout) : Except AllocErr ResizeResult :=
  match bump_allocate s new with
  | .error e => .error e
  | .ok (blk, s1) => .ok ⟨blk, bump_deallocate s1 h old, old.size, [(h, old)]⟩

/-- Translation of the free function grow_zeroed of defaults.rs at the
    bump storage. -/
def defaults_grow_zeroed (s : BumpState) (h : Nat) (old new : Layout) :
    Except AllocErr ResizeResult :=
  match bump_allocate_zeroed s new with
  | .error e => .error e
  | .ok (blk, s1) => .ok ⟨blk, bump_deallocate s1 h old, old.size, [(h, old)]⟩

/-- Translation of the free function shrink of defaults.rs at the bump
    storage: allocate the new layout zeroed, then copy memory_block.size
    bytes, the size of the block the allocation returned. -/
def defaults_shrink (s : BumpState) (h : Nat) (old new : Layout) : Except AllocErr ResizeResult :=
  match bump_allocate_zeroed s new with
  | .error e => .error e
  | .ok (blk, s1) => .ok ⟨blk, bump_deallocate s1 h old, blk.size, [(h, old)]⟩

/-- Translation of BumpStorage grow. -/
def bump_grow (s : BumpState) (h : Nat) (old new : Layout) : Except AllocErr ResizeResult :=
  if old = new then .ok ⟨⟨h, old.size⟩, s, 0, []⟩ else defaults_grow s h old new

/-- Translation of BumpStorage grow_zeroed. -/
def bump_grow_zeroed (s : BumpState) (h : Nat) (old new : Layout) :
    Except AllocErr ResizeResult :=
  if old = new then .ok ⟨⟨h, old.size⟩, s, 0, []⟩ else defaults_grow_zeroed s h old new

/-- Translation of BumpStorage shrink. -/
def bump_shrink (s : BumpState) (h : Nat) (old new : Layout) : Except AllocErr ResizeResult :=
  if old = new then .ok ⟨⟨h, old.size⟩, s, 0, []⟩ else defaults_shrink s h old new

/-- C6 counterexample: shrinking from a layout of size 5 to one of size 3
    and alignment 4, over the bump state with offset 10, allocates a new
    block whose actual size is 6, and the code copies those 6 bytes, not
    the 3 bytes the claim asserts for shrink, and not the minimum of the
    two layout sizes either. -/
theorem bump_shrink_copied_counterexample :
    bump_shrink ⟨0, 8, 10⟩ 99 ⟨5, 1⟩ ⟨3, 4⟩ =
      .ok ⟨⟨4, 6⟩, ⟨0, 8, 4⟩, 6, [(99, ⟨5, 1⟩)]⟩ ∧
    (6 : Nat) ≠ (⟨3, 4⟩ : Layout).size ∧
    (6 : Nat) ≠ min (⟨5, 1⟩ : Layout).size (⟨3, 4⟩ : Layout).size := by
  exact ⟨rfl, by decide, by decide⟩

/-- C6 amended: when the old and the new layout are equal, grow,
    grow_zeroed and shrink return the same handle with the old size,
    leave the state unchanged, copy nothing and deallocate nothing;
    otherwise they allocate the new layout, deallocate the old handle,
    and copy all old.size bytes for grow and grow_zeroed, while shrink
    copies the actual size of the block returned by the new allocation,
    which equals new.size only when the backend returns a block of
    exactly the requested size. -/
theorem bump_resize_spec (s : BumpState) (h : Nat) (old new : Layout) :
    (old = new →
      bump_grow s h old new = .ok ⟨⟨h, old.size⟩, s, 0, []⟩ ∧
      bump_grow_zeroed s h old new = .ok ⟨⟨h, old.size⟩, s, 0, []⟩ ∧
      bump_shrink s h old new = .ok ⟨⟨h, old.size⟩, s, 0, []⟩) ∧
    (old ≠ new →
      (∀ blk s1, bump_allocate s new = .ok (blk, s1) →
        bump_grow s h old new = .ok ⟨blk, bump_deallocate s1 h old, old.size, [(h, old)]⟩ ∧
        bump_grow_zeroed s h old new =
          .ok ⟨blk, bump_deallocate s1 h old, old.size, [(h, old)]⟩ ∧
        bump_shrink s h old new =
          .ok ⟨blk, bump_deallocate s1 h old, blk.size, [(h, old)]⟩) ∧
      (∀ e, bump_allocate s new = .error e →
        bump_grow s h old new = .error e ∧
        bump_grow_zeroed s h old new = .error e ∧
        bump_shrink s h old new = .error e)) := by
  constructor
  · intro heq
    simp [bump_grow, bump_grow_zeroed, bump_shrink, heq]
  · intro hne
    constructor
    · intro blk s1 hok
      simp [bump_grow, bump_grow_zeroed, bump_shrink, hne, defaults_grow,
        defaults_grow_zeroed, defaults_shrink, bump_allocate_zeroed, hok]
    · intro e he
      simp [bump_grow, bump_grow_zeroed, bump_shrink, hne, defaults_grow,
        defaults_grow_zeroed, defaults_shrink, bump_allocate_zeroed, he]

/-- Witness for C6 at concrete inputs: the identity fast path on equal
    layouts and the fallback path on distinct layouts. -/
theorem bump_resize_spec_witness :
    bump_grow ⟨0, 8, 10⟩ 99 ⟨5, 1⟩ ⟨5, 1⟩ = .ok ⟨⟨99, 5⟩, ⟨0, 8, 10⟩, 0, []⟩ ∧
    bump_shrink ⟨0, 8, 10⟩ 99 ⟨5, 1⟩ ⟨3, 4⟩ =
      .ok ⟨⟨4, 6⟩, ⟨0, 8, 4⟩, 6, [(99, ⟨5, 1⟩)]⟩ := by
  constructor
  · exact ((bump_resize_spec ⟨0, 8, 10⟩ 99 ⟨5, 1⟩ ⟨5, 1⟩).1 rfl).1
  · exact (((bump_resize_spec ⟨0, 8, 10⟩ 99 ⟨5, 1⟩ ⟨3, 4⟩).2 (by decide)).1 ⟨4, 6⟩ ⟨0, 8, 4⟩ rfl).2.2

/-! Free list allocator, from freelist.rs. The pool is a list of items
    (stored layout plus stored handle) together with a list of bitmap
    bytes; each byte packs seven status bits, the high bit 128 being the
    lock bit of the shared variant. Slot number idx lives at bit idx mod
    seven of byte number idx div seven. -/

/-- Complement of a byte value, as the bang operator on u8. -/
def u8Not (x : Nat) : Nat := 255 - x % 256

/-- One pooled entry of the free list: the layout it was freed with and
    the handle of the pooled block. -/
structure FreeListItem where
  layout : Layout
  handle : Nat
  deriving DecidableEq, Repr

/-- Default item used for out-of-range reads; the code never performs
    them, which the index bounds of the theorems reflect. -/
def noItem : FreeListItem := ⟨⟨0, 0⟩, 0⟩

/-- Acceptance test of attempt_allocate: the stored alignment must equal
    the requested alignment exactly and the stored size must be at least
    the requested size. -/
def accepts (it : FreeListItem) (L : Layout) : Bool :=
  it.layout.align == L.align && L.size ≤ it.layout.size

/-- Translation of the inner loop of attempt_allocate over the seven
    status bits of one byte: find the first set bit whose item accepts
    the request. The fuel argument counts the remaining iterations. -/
def scan_byte (items : List FreeListItem) (base byte : Nat) (L : Layout) :
    Nat → Nat → Option Nat
  | _, 0 => none
  | j, fuel + 1 =>
    if byte &&& (1 <<< j) ≠ 0 ∧ accepts (items.getD (base + j) noItem) L then some j
    else scan_byte items base byte L (j + 1) fuel

/-- Translation of the outer loop of attempt_allocate: walk the bitmap
    bytes, skip empty bytes, scan the first nonempty byte with a
    matching slot, clear its status bit and return the pooled handle
    with the requested size. The accumulator counts the bytes already
    passed. -/
def attempt_allocate_from (items : List FreeListItem) (L : Layout) :
    Nat → List Nat → Option (MemoryBlock × List Nat)
  | _, [] => none
  | i, byte :: rest =>
    if byte = 0 then
      match attempt_allocate_from items L (i + 1) rest with
      | none => none
      | some p => some (p.fst, byte :: p.snd)
    else
      match scan_byte items (i * 7) byte L 0 7 with
      | some j =>
          some (⟨(items.getD (i * 7 + j) noItem).handle, L.size⟩,
                (byte &&& u8Not (1 <<< j)) :: rest)
      | none =>
        match attempt_allocate_from items L (i + 1) rest with
        | none => none
        | some p => some (p.fst, byte :: p.snd)

/-- Translation of FreeListStorage attempt_allocate. -/
def attempt_allocate (items : List FreeListItem) (flags : List Nat) (L : Layout) :
    Option (MemoryBlock × List Nat) :=
  attempt_allocate_from items L 0 flags

/-- Translation of FreeListStorage allocate_nonempty: serve from the pool
    when attempt_allocate finds a slot, otherwise call the allocation of
    the underlying backend. The boolean of the result records whether the
    backend was reached. -/
def fl_allocate_nonempty (backend : Layout → Except AllocErr MemoryBlock)
    (items : List FreeListItem) (flags : List Nat) (L : Layout) :
    Except AllocErr MemoryBlock × List Nat × Bool :=
  match attempt_allocate items flags L with
  | some (blk, flags2) => (.ok blk, flags2, false)
  | none => (backend L, flags, true)

/-- Specification predicate: slot number idx is marked filled in the
    bitmap. -/
def slot_set (flags : List Nat) (idx : Nat) : Prop :=
  flags.getD (idx / 7) 0 &&& (1 <<< (idx % 7)) ≠ 0

instance (flags : List Nat) (idx : Nat) : Decidable (slot_set flags idx) := by
  unfold slot_set
  infer_instance

/-- Specification predicate: the item of slot number idx accepts the
    request. -/
def slot_accepts (items : List FreeListItem) (L : Layout) (idx : Nat) : Prop :=
  accepts (items.getD idx noItem) L = true

instance (items : List FreeListItem) (L : Layout) (idx : Nat) :
    Decidable (slot_accepts items L idx) := by
  unfold slot_accepts
  infer_instance

/-- Bitmap after clearing the status bit of slot number idx. -/
def clear_slot (flags : List Nat) (idx : Nat) : List Nat :=
  flags.set (idx / 7) (flags.getD (idx / 7) 0 &&& u8Not (1 <<< (idx % 7)))

/-- Memory block a pool hit at slot number idx returns. -/
def slot_block (items : List FreeListItem) (L : Layout) (idx : Nat) : MemoryBlock :=
  ⟨(items.getD idx noItem).handle, L.size⟩

theorem slot_set_cons_lt (b : Nat) (rest : List Nat) (idx : Nat) (h : idx < 7) :
    slot_set (b :: rest) idx ↔ b &&& (1 <<< idx) ≠ 0 := by
  unfold slot_set
  rw [Nat.div_eq_of_lt h, Nat.mod_eq_of_lt h]
  rfl

theorem slot_set_cons_ge (b : Nat) (rest : List Nat) (idx : Nat) :
    slot_set (b :: rest) (idx + 7) ↔ slot_set rest idx := by
  unfold slot_set
  rw [Nat.add_div_right _ (by omega), Nat.add_mod_right]
  rfl

theorem clear_slot_cons_lt (b : Nat) (rest : List Nat) (idx : Nat) (h : idx < 7) :
    clear_slot (b :: rest) idx = (b &&& u8Not (1 <<< idx)) :: rest := by
  unfold clear_slot
  rw [Nat.div_eq_of_lt h, Nat.mod_eq_of_lt h]
  rfl

theorem clear_slot_cons_ge (b : Nat) (rest : List Nat) (idx : Nat) :
    clear_slot (b :: rest) (idx + 7) = b :: clear_slot rest idx := by
  unfold clear_slot
  rw [Nat.add_div_right _ (by omega), Nat.add_mod_right]
  rfl

theorem scan_byte_spec (items : List FreeListItem) (base byte : Nat) (L : Layout) :
    ∀ fuel j,
      (∀ j0, scan_byte items base byte L j fuel = some j0 →
        j ≤ j0 ∧ j0 < j + fuel ∧ byte &&& (1 <<< j0) ≠ 0 ∧ slot_accepts items L (base + j0) ∧
        ∀ j1, j ≤ j1 → j1 < j0 →
          ¬(byte &&& (1 <<< j1) ≠ 0 ∧ slot_accepts items L (base + j1))) ∧
      (scan_byte items base byte L j fuel = none →
        ∀ j1, j ≤ j1 → j1 < j + fuel →
          ¬(byte &&& (1 <<< j1) ≠ 0 ∧ slot_accepts items L (base + j1))) := by
  intro fuel
  induction fuel with
  | zero =>
    intro j
    refine ⟨fun j0 h => by simp [scan_byte] at h, fun _ j1 h1 h2 => by omega⟩
  | succ n ih =>
    intro j
    constructor
    · intro j0 h
      rw [scan_byte] at h
      split at h
      · rename_i hcond
        cases h
        exact ⟨le_refl _, by omega, hcond.1, hcond.2, fun j1 h1 h2 => by omega⟩
      · rename_i hcond
        obtain ⟨ha, hb, hc, hd, he⟩ := (ih (j + 1)).1 j0 h
        refine ⟨by omega, by omega, hc, hd, ?_⟩
        intro j1 h1 h2
        rcases Nat.eq_or_lt_of_le h1 with heq | hlt
        · subst heq
          exact hcond
        · exact he j1 (by omega) h2
    · intro h j1 h1 h2
      rw [scan_byte] at h
      split at h
      · exact absurd h (by simp)
      · rename_i hcond
        rcases Nat.eq_or_lt_of_le h1 with heq | hlt
        · subst heq
          exact hcond
        · exact (ih (j + 1)).2 h j1 (by omega) (by omega)

theorem attempt_from_spec (items : List FreeListItem) (L : Layout) :
    ∀ flags i,
      (∀ blk flags2, attempt_allocate_from items L i flags = some (blk, flags2) →
        ∃ idx, idx < 7 * flags.length ∧ slot_set flags idx ∧
          slot_accepts items L (7 * i + idx) ∧
          (∀ idx2, idx2 < idx → ¬(slot_set flags idx2 ∧ slot_accepts items L (7 * i + idx2))) ∧
          blk = slot_block items L (7 * i + idx) ∧ flags2 = clear_slot flags idx) ∧
      (attempt_allocate_from items L i flags = none →
        ∀ idx, idx < 7 * flags.length →
          ¬(slot_set flags idx ∧ slot_accepts items L (7 * i + idx))) := by
  intro flags
  induction flags with
  | nil =>
    intro i
    constructor
    · intro blk flags2 h
      simp [attempt_allocate_from] at h
    · intro _ idx hidx
      simp at hidx
  | cons byte rest ih =>
    intro i
    have hlen : (byte :: rest).length = rest.length + 1 := rfl
    constructor
    · intro blk flags2 h
      rw [attempt_allocate_from] at h
      split at h
      · rename_i hb
        split at h
        · exact absurd h (by simp)
        · rename_i p hrec
          simp only [Option.some.injEq, Prod.mk.injEq] at h
          obtain ⟨hblk, hflags2⟩ := h
          obtain ⟨idx, hidx, hset, hacc, hmin, hblk', hclear⟩ := (ih (i + 1)).1 p.fst p.snd hrec
          refine ⟨idx + 7, ?_, ?_, ?_, ?_, ?_, ?_⟩
          · rw [hlen]; omega
          · exact (slot_set_cons_ge byte rest idx).mpr hset
          · have he : 7 * i + (idx + 7) = 7 * (i + 1) + idx := by ring
            rw [he]; exact hacc
          · intro idx2 hidx2
            by_cases h7 : idx2 < 7
            · rw [slot_set_cons_lt byte rest idx2 h7, hb]
              intro hcontra
              exact hcontra.1 (by simp)
            · obtain ⟨idx2', rfl⟩ : ∃ k, idx2 = k + 7 := ⟨idx2 - 7, by omega⟩
              rw [slot_set_cons_ge]
              have he : 7 * i + (idx2' + 7) = 7 * (i + 1) + idx2' := by ring
              rw [he]
              exact hmin idx2' (by omega)
          · rw [← hblk, hblk']
            have he : 7 * i + (idx + 7) = 7 * (i + 1) + idx := by ring
            rw [he]
          · rw [← hflags2, hclear, clear_slot_cons_ge]
      · rename_i hb
        split at h
        · rename_i j hscan
          simp only [Option.some.injEq, Prod.mk.injEq] at h
          obtain ⟨hblk, hflags2⟩ := h
          obtain ⟨hj0, hj7, hbit, hacc, hmin⟩ := (scan_byte_spec items (i * 7) byte L 7 0).1 j hscan
          refine ⟨j, ?_, ?_, ?_, ?_, ?_, ?_⟩
          · rw [hlen]; omega
          · exact (slot_set_cons_lt byte rest j (by omega)).mpr hbit
          · have he : 7 * i + j = i * 7 + j := by ring
            rw [he]; exact hacc
          · intro idx2 hidx2
            rw [slot_set_cons_lt byte rest idx2 (by omega)]
            have he : 7 * i + idx2 = i * 7 + idx2 := by ring
            rw [he]
            exact hmin idx2 (by omega) hidx2
          · rw [← hblk]
            unfold slot_block
            have he : 7 * i + j = i * 7 + j := by ring
            rw [he]
          · rw [← hflags2, clear_slot_cons_lt byte rest j (by omega)]
        · rename_i hscan
          split at h
          · exact absurd h (by simp)
          · rename_i p hrec
            simp only [Option.some.injEq, Prod.mk.injEq] at h
            obtain ⟨hblk, hflags2⟩ := h
            obtain ⟨idx, hidx, hset, hacc, hmin, hblk', hclear⟩ := (ih (i + 1)).1 p.fst p.snd hrec
            refine ⟨idx + 7, ?_, ?_, ?_, ?_, ?_, ?_⟩
            · rw [hlen]; omega
            · exact (slot_set_cons_ge byte rest idx).mpr hset
            · have he : 7 * i + (idx + 7) = 7 * (i + 1) + idx := by ring
              rw [he]; exact hacc
            · intro idx2 hidx2
              by_cases h7 : idx2 < 7
              · rw [slot_set_cons_lt byte rest idx2 h7]
                have he : 7 * i + idx2 = i * 7 + idx2 := by ring
                rw [he]
                exact (scan_byte_spec items (i * 7) byte L 7 0).2 hscan idx2 (by omega) (by omega)
              · obtain ⟨idx2', rfl⟩ : ∃ k, idx2 = k + 7 := ⟨idx2 - 7, by omega⟩
                rw [slot_set_cons_ge]
                have he : 7 * i + (idx2' + 7) = 7 * (i + 1) + idx2' := by ring
                rw [he]
                exact hmin idx2' (by omega)
            · rw [← hblk, hblk']
              have he : 7 * i + (idx + 7) = 7 * (i + 1) + idx := by ring
              rw [he]
            · rw [← hflags2, hclear, clear_slot_cons_ge]
    · intro h idx hidx
      rw [attempt_allocate_from] at h
      split at h
      · rename_i hb
        split at h
        · rename_i hrec
          by_cases h7 : idx < 7
          · rw [slot_set_cons_lt byte rest idx h7, hb]
            intro hcontra
            exact hcontra.1 (by simp)
          · obtain ⟨idx', rfl⟩ : ∃ k, idx = k + 7 := ⟨idx - 7, by omega⟩
            rw [slot_set_cons_ge]
            have he : 7 * i + (idx' + 7) = 7 * (i + 1) + idx' := by ring
            rw [he]
            refine (ih (i + 1)).2 hrec idx' ?_
            rw [hlen] at hidx; omega
        · exact absurd h (by simp)
      · rename_i hb
        split at h
        · exact absurd h (by simp)
        · rename_i hscan
          split at h
          · rename_i hrec
            by_cases h7 : idx < 7
            · rw [slot_set_cons_lt byte rest idx h7]
              have he : 7 * i + idx = i * 7 + idx := by ring
              rw [he]
              exact (scan_byte_spec items (i * 7) byte L 7 0).2 hscan idx (by omega) (by omega)
            · obtain ⟨idx', rfl⟩ : ∃ k, idx = k + 7 := ⟨idx - 7, by omega⟩
              rw [slot_set_cons_ge]
              have he : 7 * i + (idx' + 7) = 7 * (i + 1) + idx' := by ring
              rw [he]
              refine (ih (i + 1)).2 hrec idx' ?_
              rw [hlen] at hidx; omega
          · exact absurd h (by simp)

/-! Shared free list scan, from attempt_shared_allocate. Concurrency is
    modelled by an oracle: for every bitmap byte the scan visits, the
    oracle provides the value the relaxed load observes and the previous
    value the fetch_or lock acquisition returns. The lock bit is 128. -/

/-- Observations of one bitmap byte during a shared scan. -/
structure ByteObs where
  load : Nat
  cas : Nat
  deriving DecidableEq, Repr

/-- Translation of attempt_shared_allocate. The boolean accumulator is
    the was_blocked flag: the load branch accumulates into it with an
    or, while the branch that loses the fetch_or race assigns false to
    it, exactly as the source does. -/
def attempt_shared_allocate_from (items : List FreeListItem) (L : Layout) :
    Nat → List ByteObs → Bool → Option MemoryBlock × Bool
  | _, [], wb => (none, wb)
  | i, o :: rest, wb =>
    if o.load &&& 128 ≠ 0 ∨ o.load = 0 then
      attempt_shared_allocate_from items L (i + 1) rest (wb || decide (o.load &&& 128 ≠ 0))
    else if o.cas &&& 128 ≠ 0 then
      attempt_shared_allocate_from items L (i + 1) rest false
    else
      match scan_byte items (i * 7) o.cas L 0 7 with
      | some j => (some ⟨(items.getD (i * 7 + j) noItem).handle, L.size⟩, wb)
      | none => attempt_shared_allocate_from items L (i + 1) rest wb

/-- One full shared scan over the bitmap, starting unblocked. -/
def attempt_shared_allocate (items : List FreeListItem) (obs : List ByteObs) (L : Layout) :
    Option MemoryBlock × Bool :=
  attempt_shared_allocate_from items L 0 obs false

/-- Outcome of shared_allocate_nonempty: either a pool hit or the fall
    through to the underlying backend, counting the scans performed. -/
inductive FLOutcome where
  | pool (blk : MemoryBlock) (roundsUsed : Nat)
  | backend (roundsUsed : Nat)
  deriving DecidableEq, Repr

/-- Translation of the retry loop of shared_allocate_nonempty. The spin
    method of the Backoff waiter returns true while its step counter is
    at most six, so at most seven scans run; a scan that returns a block
    ends the loop, a scan that ends with was_blocked false breaks to the
    backend, and only a scan that ends with was_blocked true retries. -/
def shared_allocate_loop (items : List FreeListItem) (L : Layout) :
    List (List ByteObs) → Nat → Nat → FLOutcome
  | [], _, used => .backend used
  | r :: rest, step, used =>
    if 6 < step then .backend used
    else
      match attempt_shared_allocate items r L with
      | (some blk, _) => .pool blk (used + 1)
      | (none, true) => shared_allocate_loop items L rest (step + 1) (used + 1)
      | (none, false) => .backend (used + 1)

/-- Entry point of the retry loop with a fresh Backoff waiter. -/
def shared_allocate_nonempty_rounds (items : List FreeListItem) (L : Layout)
    (rounds : List (List ByteObs)) : FLOutcome :=
  shared_allocate_loop items L rounds 0 0

theorem land_128_eq_zero (b : Nat) (hb : b < 128) : b &&& 128 = 0 := by
  have h7 : (128 : Nat) = 2 ^ 7 := rfl
  rw [h7, Nat.and_two_pow, Nat.testBit_lt_two_pow hb]
  rfl

theorem attempt_shared_uncontended (items : List FreeListItem) (L : Layout) :
    ∀ bytes : List Nat, (∀ b ∈ bytes, b < 128) → ∀ i wb,
      attempt_shared_allocate_from items L i (bytes.map fun b => ⟨b, b⟩) wb =
        ((attempt_allocate_from items L i bytes).map Prod.fst, wb) := by
  intro bytes
  induction bytes with
  | nil => intro _ i wb; rfl
  | cons b rest ih =>
    intro hlt i wb
    have hb128 : b &&& 128 = 0 := land_128_eq_zero b (hlt b (by simp))
    have hrest : ∀ x ∈ rest, x < 128 := fun x hx => hlt x (by simp [hx])
    rw [List.map_cons, attempt_shared_allocate_from, attempt_allocate_from]
    dsimp only
    by_cases hb0 : b = 0
    · rw [if_pos (Or.inr hb0)]
      have harg : (wb || decide (b &&& 128 ≠ 0)) = wb := by simp [hb128]
      rw [harg, ih hrest (i + 1) wb, if_pos hb0]
      cases hrec : attempt_allocate_from items L (i + 1) rest with
      | none => simp [hrec]
      | some p => simp [hrec]
    · rw [if_neg (by simp [hb128, hb0]), if_neg (by simp [hb128]), if_neg hb0]
      cases hscan : scan_byte items (i * 7) b L 0 7 with
      | some j => simp [hscan]
      | none =>
        cases hrec : attempt_allocate_from items L (i + 1) rest with
        | none => simp [hrec, ih hrest (i + 1) wb]
        | some p => simp [hrec, ih hrest (i + 1) wb]

theorem attempt_shared_from_size (items : List FreeListItem) (L : Layout) :
    ∀ obs i wb blk wb2,
      attempt_shared_allocate_from items L i obs wb = (some blk, wb2) → blk.size = L.size := by
  intro obs
  induction obs with
  | nil =>
    intro i wb blk wb2 h
    simp [attempt_shared_allocate_from] at h
  | cons o rest ih =>
    intro i wb blk wb2 h
    rw [attempt_shared_allocate_from] at h
    split at h
    · exact ih _ _ _ _ h
    · split at h
      · exact ih _ _ _ _ h
      · split at h
        · rename_i j hscan
          simp only [Prod.mk.injEq, Option.some.injEq] at h
          rw [← h.1]
        · exact ih _ _ _ _ h

/-- C2: fit policy of the free list. A scan of the pool accepts a slot
    exactly when the stored alignment equals the requested alignment and
    the stored size is at least the requested size, and it takes the
    first such slot in bitmap scan order; when the scan accepts nothing,
    allocate_nonempty reaches the allocation of the underlying backend;
    and an uncontended shared scan returns the same block as the
    exclusive scan. -/
theorem fl_first_fit_policy_and_fallback
    (items : List FreeListItem) (flags : List Nat) (L : Layout)
    (backend : Layout → Except AllocErr MemoryBlock) :
    (∀ blk flags2, attempt_allocate items flags L = some (blk, flags2) →
      ∃ idx, idx < 7 * flags.length ∧ slot_set flags idx ∧ slot_accepts items L idx ∧
        (∀ idx2, idx2 < idx → ¬(slot_set flags idx2 ∧ slot_accepts items L idx2)) ∧
        blk = slot_block items L idx ∧ flags2 = clear_slot flags idx) ∧
    (attempt_allocate items flags L = none →
      (∀ idx, idx < 7 * flags.length → ¬(slot_set flags idx ∧ slot_accepts items L idx)) ∧
      fl_allocate_nonempty backend items flags L = (backend L, flags, true)) ∧
    ((∀ b ∈ flags, b < 128) →
      attempt_shared_allocate items (flags.map fun b => ⟨b, b⟩) L =
        ((attempt_allocate items flags L).map Prod.fst, false)) := by
  refine ⟨?_, ?_, ?_⟩
  · intro blk flags2 h
    have hspec := (attempt_from_spec items L flags 0).1 blk flags2 h
    simpa using hspec
  · intro h
    constructor
    · intro idx hidx
      have hspec := (attempt_from_spec items L flags 0).2 h idx hidx
      simpa using hspec
    · unfold fl_allocate_nonempty
      rw [h]
  · intro hb
    exact attempt_shared_uncontended items L flags hb 0 false

/-- Witness for C2: a pool holding a slot of alignment 2 before a slot of
    alignment 4 with stored size 9; a request of size 3 and alignment 4
    skips the first slot and takes the second, an empty bitmap falls
    through to the backend, and the uncontended shared scan agrees. -/
theorem fl_first_fit_policy_and_fallback_witness :
    attempt_allocate [⟨⟨4, 2⟩, 11⟩, ⟨⟨9, 4⟩, 22⟩] [3] ⟨3, 4⟩ = some (⟨22, 3⟩, [1]) ∧
    (∃ idx, idx < 7 * [3].length ∧ slot_set [3] idx ∧
      slot_accepts [⟨⟨4, 2⟩, 11⟩, ⟨⟨9, 4⟩, 22⟩] ⟨3, 4⟩ idx ∧
      (∀ idx2, idx2 < idx →
        ¬(slot_set [3] idx2 ∧ slot_accepts [⟨⟨4, 2⟩, 11⟩, ⟨⟨9, 4⟩, 22⟩] ⟨3, 4⟩ idx2)) ∧
      (⟨22, 3⟩ : MemoryBlock) = slot_block [⟨⟨4, 2⟩, 11⟩, ⟨⟨9, 4⟩, 22⟩] ⟨3, 4⟩ idx ∧
      [1] = clear_slot [3] idx) ∧
    fl_allocate_nonempty (fun L => .error ⟨L⟩) [⟨⟨4, 2⟩, 11⟩, ⟨⟨9, 4⟩, 22⟩] [0] ⟨3, 4⟩ =
      (.error ⟨⟨3, 4⟩⟩, [0], true) ∧
    attempt_shared_allocate [⟨⟨4, 2⟩, 11⟩, ⟨⟨9, 4⟩, 22⟩] [⟨3, 3⟩] ⟨3, 4⟩ =
      (some ⟨22, 3⟩, false) := by
  refine ⟨rfl, ?_, ?_, ?_⟩
  · exact (fl_first_fit_policy_and_fallback [⟨⟨4, 2⟩, 11⟩, ⟨⟨9, 4⟩, 22⟩] [3] ⟨3, 4⟩
      (fun L => .error ⟨L⟩)).1 ⟨22, 3⟩ [1] rfl
  · exact ((fl_first_fit_policy_and_fallback [⟨⟨4, 2⟩, 11⟩, ⟨⟨9, 4⟩, 22⟩] [0] ⟨3, 4⟩
      (fun L => .error ⟨L⟩)).2.1 rfl).2
  · have hs := (fl_first_fit_policy_and_fallback [⟨⟨4, 2⟩, 11⟩, ⟨⟨9, 4⟩, 22⟩] [3] ⟨3, 4⟩
      (fun L => .error ⟨L⟩)).2.2 (by decide)
    simpa using hs

/-- C10: a pool hit reports the requested size. Whenever the exclusive or
    the shared scan of the free list returns a block, the size field of
    the block equals the size of the requested layout, never the possibly
    larger stored size of the reused slot. -/
theorem fl_pool_hit_reports_requested_size
    (items : List FreeListItem) (flags : List Nat) (L : Layout) :
    (∀ blk flags2, attempt_allocate items flags L = some (blk, flags2) → blk.size = L.size) ∧
    (∀ obs i wb blk wb2,
      attempt_shared_allocate_from items L i obs wb = (some blk, wb2) → blk.size = L.size) := by
  constructor
  · intro blk flags2 h
    obtain ⟨idx, _, _, _, _, hblk, _⟩ := (attempt_from_spec items L flags 0).1 blk flags2 h
    rw [hblk]
    rfl
  · exact attempt_shared_from_size items L

/-- Witness for C10: the accepted slot stores size 9 but the request asks
    for 3 bytes, and the returned block reports exactly 3. -/
theorem fl_pool_hit_reports_requested_size_witness :
    attempt_allocate [⟨⟨4, 2⟩, 11⟩, ⟨⟨9, 4⟩, 22⟩] [2] ⟨3, 4⟩ = some (⟨22, 3⟩, [0]) ∧
    (⟨22, 3⟩ : MemoryBlock).size = (⟨3, 4⟩ : Layout).size ∧
    ([⟨⟨4, 2⟩, 11⟩, ⟨⟨9, 4⟩, 22⟩].getD 1 noItem).layout.size = 9 := by
  refine ⟨rfl, ?_, rfl⟩
  exact (fl_pool_hit_reports_requested_size [⟨⟨4, 2⟩, 11⟩, ⟨⟨9, 4⟩, 22⟩] [2] ⟨3, 4⟩).1
    ⟨22, 3⟩ [0] rfl

/-- C3 is refuted by the code: in attempt_shared_allocate, losing the
    fetch_or race assigns false to was_blocked instead of keeping or
    setting it, so a scan that observed a locked byte can end with
    was_blocked false; shared_allocate_nonempty then breaks out of the
    retry loop and reaches the backend without any retry, although the
    locked byte zero holds a slot accepting the request. The first byte
    is observed locked at its relaxed load, the second byte is observed
    unlocked and nonempty but its fetch_or returns a locked previous
    value, and the scan ends unblocked after one round. -/
theorem shared_allocate_observed_lock_no_retry :
    attempt_shared_allocate [⟨⟨8, 4⟩, 55⟩] [⟨129, 129⟩, ⟨1, 129⟩] ⟨8, 4⟩ = (none, false) ∧
    shared_allocate_nonempty_rounds [⟨⟨8, 4⟩, 55⟩] ⟨8, 4⟩
        [[⟨129, 129⟩, ⟨1, 129⟩], [⟨1, 1⟩, ⟨0, 0⟩]] = .backend 1 ∧
    (129 : Nat) &&& 128 ≠ 0 ∧
    slot_accepts [⟨⟨8, 4⟩, 55⟩] ⟨8, 4⟩ 0 ∧
    attempt_shared_allocate [⟨⟨8, 4⟩, 55⟩] [⟨1, 1⟩, ⟨0, 0⟩] ⟨8, 4⟩ =
      (some ⟨55, 8⟩, false) := by
  refine ⟨rfl, rfl, by decide, by decide, rfl⟩

/-! Picker combinator, from picker.rs. The two child storages are
    abstracted into an event log: each picker operation is modelled by
    the list of child calls it performs, in order. The shared variants
    follow the same routing with the shared child calls. -/

/-- Side of the picker: the left or the right child storage. -/
inductive Side where
  | left
  | right
  deriving DecidableEq, Repr

/-- One call a picker operation performs on a child storage. -/
inductive ChildCall where
  | alloc (s : Side) (L : Layout)
  | allocZeroed (s : Side) (L : Layout)
  | dealloc (s : Side) (L : Layout)
  | growCall (s : Side) (old new : Layout)
  | growZeroedCall (s : Side) (old new : Layout)
  | shrinkCall (s : Side) (old new : Layout)
  deriving DecidableEq, Repr

/-- Translation of Picker allocate and allocate_nonempty: evaluate the
    predicate once and route to the corresponding child. -/
def picker_allocate (c : Layout → Bool) (L : Layout) : List ChildCall :=
  if c L then [.alloc .left L] else [.alloc .right L]

/-- Translation of Picker deallocate and deallocate_nonempty. -/
def picker_deallocate (c : Layout → Bool) (L : Layout) : List ChildCall :=
  if c L then [.dealloc .left L] else [.dealloc .right L]

/-- Translation of Picker grow: with both layouts on one side, call grow
    of that child; across the boundary, allocate the new layout from the
    side the old layout chose and deallocate the old handle from the
    other side, exactly as the source arms read. -/
def picker_grow (c : Layout → Bool) (old new : Layout) : List ChildCall :=
  match c old, c new with
  | true, true => [.growCall .left old new]
  | false, false => [.growCall .right old new]
  | o, _ =>
    (if o then [.alloc .left new] else [.alloc .right new]) ++
    (if o then [.dealloc .right old] else [.dealloc .left old])

/-- Translation of Picker grow_zeroed: the same-side arms call grow of
    the child, not grow_zeroed; across the boundary the zeroed
    allocation happens on the side the old layout chose. -/
def picker_grow_zeroed (c : Layout → Bool) (old new : Layout) : List ChildCall :=
  match c old, c new with
  | true, true => [.growCall .left old new]
  | false, false => [.growCall .right old new]
  | o, _ =>
    (if o then [.allocZeroed .left new] else [.allocZeroed .right new]) ++
    (if o then [.dealloc .right old] else [.dealloc .left old])

/-- Translation of Picker shrink: the same-side arms call grow of the
    child, not shrink; across the boundary the plain allocation happens
    on the side the old layout chose. -/
def picker_shrink (c : Layout → Bool) (old new : Layout) : List ChildCall :=
  match c old, c new with
  | true, true => [.growCall .left old new]
  | false, false => [.growCall .right old new]
  | o, _ =>
    (if o then [.alloc .left new] else [.alloc .right new]) ++
    (if o then [.dealloc .right old] else [.dealloc .left old])

/-- C7 is refuted by the code on three points, shown here on a size
    predicate choosing the left child for layouts of size at most four.
    Allocation and deallocation do route by the predicate as claimed, but
    a boundary-crossing grow allocates the new layout from the side the
    old layout routes to and deallocates the old handle from the side
    the new layout routes to, the opposite of the claim; moreover a
    same-side shrink and a same-side grow_zeroed both invoke grow of the
    child instead of the corresponding operation. -/
theorem picker_routing_counterexample :
    picker_allocate (fun L => L.size ≤ 4) ⟨2, 1⟩ = [.alloc .left ⟨2, 1⟩] ∧
    picker_allocate (fun L => L.size ≤ 4) ⟨8, 1⟩ = [.alloc .right ⟨8, 1⟩] ∧
    picker_deallocate (fun L => L.size ≤ 4) ⟨2, 1⟩ = [.dealloc .left ⟨2, 1⟩] ∧
    picker_grow (fun L => L.size ≤ 4) ⟨2, 1⟩ ⟨8, 1⟩ =
      [.alloc .left ⟨8, 1⟩, .dealloc .right ⟨2, 1⟩] ∧
    picker_grow (fun L => L.size ≤ 4) ⟨2, 1⟩ ⟨8, 1⟩ ≠
      [.alloc .right ⟨8, 1⟩, .dealloc .left ⟨2, 1⟩] ∧
    picker_shrink (fun L => L.size ≤ 4) ⟨4, 1⟩ ⟨2, 1⟩ = [.growCall .left ⟨4, 1⟩ ⟨2, 1⟩] ∧
    picker_shrink (fun L => L.size ≤ 4) ⟨4, 1⟩ ⟨2, 1⟩ ≠ [.shrinkCall .left ⟨4, 1⟩ ⟨2, 1⟩] ∧
    picker_grow_zeroed (fun L => L.size ≤ 4) ⟨2, 1⟩ ⟨4, 1⟩ =
      [.growCall .left ⟨2, 1⟩ ⟨4, 1⟩] ∧
    picker_grow_zeroed (fun L => L.size ≤ 4) ⟨2, 1⟩ ⟨4, 1⟩ ≠
      [.growZeroedCall .left ⟨2, 1⟩ ⟨4, 1⟩] := by
  refine ⟨rfl, rfl, rfl, rfl, by decide, rfl, by decide, rfl, by decide⟩

/-! Reference counting, from rc.rs. The state tracks the strong counter
    (the init field of the Counters block), the weak-equivalent counter
    (the alloc field), whether the value is still alive, whether the
    backing memory is still allocated, and how many destructor runs and
    deallocations happened. Counter decrement is the wrapping decrement
    of the Cell and AtomicUsize Counter implementations, which returns
    the previous value. -/

/-- Wrapping decrement of a usize counter. -/
def wrapSub1 (n : Nat) : Nat := (n + (USIZE - 1)) % USIZE

structure RcState where
  strong : Nat
  weakEq : Nat
  valueAlive : Bool
  memAllocated : Bool
  dtorRuns : Nat
  deallocs : Nat
  deriving DecidableEq, Repr

/-- Translation of drop_fast at the weak kind: decrement the alloc
    counter; when the decrement returns one, drop_slow deallocates the
    backing memory outright. -/
def drop_fast_weak (s : RcState) : RcState :=
  if s.weakEq = 1 then
    { s with weakEq := wrapSub1 s.weakEq, memAllocated := false, deallocs := s.deallocs + 1 }
  else { s with weakEq := wrapSub1 s.weakEq }

/-- Translation of drop_fast at the strong kind: decrement the init
    counter; when the decrement returns one, drop_slow runs the value
    destructor in place and then, through the scope guard, recurses into
    the weak drop path for the implicit weak-equivalent reference. -/
def drop_fast_strong (s : RcState) : RcState :=
  if s.strong = 1 then
    drop_fast_weak
      { s with strong := wrapSub1 s.strong, valueAlive := false, dtorRuns := s.dtorRuns + 1 }
  else { s with strong := wrapSub1 s.strong }

/-- Iterated strong drops, first drop applied first. -/
def iterate_drop_strong : Nat → RcState → RcState
  | 0, s => s
  | n + 1, s => iterate_drop_strong n (drop_fast_strong s)

/-- Iterated weak drops, first drop applied first. -/
def iterate_drop_weak : Nat → RcState → RcState
  | 0, s => s
  | n + 1, s => iterate_drop_weak n (drop_fast_weak s)

/-- Fresh group of references: n strong references and m weak-equivalent
    references, value alive, memory allocated, no destructor run yet. -/
def mkRc (n m : Nat) : RcState := ⟨n, m, true, true, 0, 0⟩

theorem wrapSub1_eq (n : Nat) (h1 : 1 ≤ n) (h2 : n < USIZE) : wrapSub1 n = n - 1 := by
  have hU : USIZE = 18446744073709551616 := by norm_num [USIZE]
  unfold wrapSub1
  rw [hU] at h2 ⊢
  omega

theorem iterate_drop_strong_succ (k : Nat) :
    ∀ s, iterate_drop_strong (k + 1) s = drop_fast_strong (iterate_drop_strong k s) := by
  induction k with
  | zero => intro s; rfl
  | succ n ih =>
    intro s
    rw [iterate_drop_strong, ih (drop_fast_strong s), iterate_drop_strong]

theorem iterate_drop_weak_succ (k : Nat) :
    ∀ s, iterate_drop_weak (k + 1) s = drop_fast_weak (iterate_drop_weak k s) := by
  induction k with
  | zero => intro s; rfl
  | succ n ih =>
    intro s
    rw [iterate_drop_weak, ih (drop_fast_weak s), iterate_drop_weak]

theorem iterate_strong_upto :
    ∀ k n m, k < n → n < USIZE → iterate_drop_strong k (mkRc n m) = mkRc (n - k) m := by
  intro k
  induction k with
  | zero => intro n m _ _; simp [iterate_drop_strong]
  | succ j ih =>
    intro n m hk hn
    rw [iterate_drop_strong]
    have hne : n ≠ 1 := by omega
    have hsub : wrapSub1 n = n - 1 := wrapSub1_eq n (by omega) hn
    have hdrop : drop_fast_strong (mkRc n m) = mkRc (n - 1) m := by
      unfold drop_fast_strong mkRc
      simp [hne, hsub]
    rw [hdrop]
    have hlt1 : j < n - 1 := by omega
    have hlt2 : n - 1 < USIZE := by omega
    rw [ih (n - 1) m hlt1 hlt2]
    have he : n - 1 - j = n - (j + 1) := by omega
    rw [he]

theorem iterate_weak_upto :
    ∀ k mw, k < mw → mw < USIZE →
      iterate_drop_weak k ⟨0, mw, false, true, 1, 0⟩ = ⟨0, mw - k, false, true, 1, 0⟩ := by
  intro k
  induction k with
  | zero => intro mw _ _; simp [iterate_drop_weak]
  | succ j ih =>
    intro mw hk hmw
    rw [iterate_drop_weak]
    have hne : mw ≠ 1 := by omega
    have hsub : wrapSub1 mw = mw - 1 := wrapSub1_eq mw (by omega) hmw
    have hdrop : drop_fast_weak ⟨0, mw, false, true, 1, 0⟩ = ⟨0, mw - 1, false, true, 1, 0⟩ := by
      unfold drop_fast_weak
      simp [hne, hsub]
    rw [hdrop]
    have hlt1 : j < mw - 1 := by omega
    have hlt2 : mw - 1 < USIZE := by omega
    rw [ih (mw - 1) hlt1 hlt2]
    have he : mw - 1 - j = mw - (j + 1) := by omega
    rw [he]

theorem after_strong_drops (n m : Nat) (hn : 1 ≤ n) (hm : 1 ≤ m)
    (hnU : n < USIZE) (hmU : m < USIZE) :
    iterate_drop_strong n (mkRc n m) =
      if m = 1 then ⟨0, 0, false, false, 1, 1⟩ else ⟨0, m - 1, false, true, 1, 0⟩ := by
  have h1 : wrapSub1 1 = 0 := by
    rw [wrapSub1_eq 1 (by omega) (by unfold USIZE; norm_num)]
  have hmsub : wrapSub1 m = m - 1 := wrapSub1_eq m (by omega) hmU
  have hlast : drop_fast_strong (mkRc 1 m) =
      (if m = 1 then (⟨0, 0, false, false, 1, 1⟩ : RcState)
       else ⟨0, m - 1, false, true, 1, 0⟩) := by
    unfold drop_fast_strong mkRc drop_fast_weak
    by_cases hm1 : m = 1
    · simp [hm1, h1]
    · simp [hm1, hmsub, h1]
  obtain ⟨j, rfl⟩ : ∃ j, n = j + 1 := ⟨n - 1, by omega⟩
  rw [iterate_drop_strong_succ]
  rcases Nat.eq_zero_or_pos j with hj | hj
  · subst hj
    rw [show iterate_drop_strong 0 (mkRc 1 m) = mkRc 1 m from rfl, hlast]
  · rw [iterate_strong_upto j (j + 1) m (by omega) hnU,
      show j + 1 - j = 1 from by omega, hlast]

theorem teardown_complete (n m : Nat) (hn : 1 ≤ n) (hm : 1 ≤ m)
    (hnU : n < USIZE) (hmU : m < USIZE) :
    iterate_drop_weak (m - 1) (iterate_drop_strong n (mkRc n m)) =
      ⟨0, 0, false, false, 1, 1⟩ := by
  rw [after_strong_drops n m hn hm hnU hmU]
  by_cases hm1 : m = 1
  · rw [if_pos hm1, hm1]
    rfl
  · rw [if_neg hm1]
    obtain ⟨j, hj⟩ : ∃ j, m - 1 = j + 1 := ⟨m - 2, by omega⟩
    rw [hj, iterate_drop_weak_succ,
      iterate_weak_upto j (j + 1) (by omega) (by omega)]
    have hsub : j + 1 - j = 1 := by omega
    rw [hsub]
    unfold drop_fast_weak
    simp [wrapSub1_eq 1 (by omega) (by unfold USIZE; norm_num)]

/-- C4: two-phase reference-counted teardown. Dropping a reference
    decrements the counter of its kind and takes the slow path exactly
    when the decrement returns one; the strong slow path runs the
    destructor in place and then recurses into the weak drop path for
    the implicit weak-equivalent reference, while the weak slow path
    deallocates the backing memory outright. Starting from n strong and
    m weak-equivalent references, the destructor has not run before the
    last strong drop, runs exactly once at the last strong drop, the
    memory survives the strong drops exactly when other weak-equivalent
    references remain, and the backing memory is freed exactly once,
    when the weak-equivalent count also reaches zero. -/
theorem rc_two_phase_teardown (n m : Nat) (hn : 1 ≤ n) (hm : 1 ≤ m)
    (hnU : n < USIZE) (hmU : m < USIZE) :
    (∀ s : RcState, s.strong ≠ 1 →
      drop_fast_strong s = { s with strong := wrapSub1 s.strong }) ∧
    (∀ s : RcState, s.strong = 1 →
      drop_fast_strong s =
        drop_fast_weak
          { s with strong := wrapSub1 s.strong, valueAlive := false,
                   dtorRuns := s.dtorRuns + 1 }) ∧
    (∀ s : RcState, s.weakEq ≠ 1 →
      drop_fast_weak s = { s with weakEq := wrapSub1 s.weakEq }) ∧
    (∀ s : RcState, s.weakEq = 1 →
      drop_fast_weak s =
        { s with weakEq := wrapSub1 s.weakEq, memAllocated := false,
                 deallocs := s.deallocs + 1 }) ∧
    (∀ k, k < n →
      (iterate_drop_strong k (mkRc n m)).dtorRuns = 0 ∧
      (iterate_drop_strong k (mkRc n m)).valueAlive = true ∧
      (iterate_drop_strong k (mkRc n m)).memAllocated = true) ∧
    (iterate_drop_strong n (mkRc n m)).dtorRuns = 1 ∧
    (iterate_drop_strong n (mkRc n m)).valueAlive = false ∧
    (iterate_drop_strong n (mkRc n m)).weakEq = m - 1 ∧
    ((iterate_drop_strong n (mkRc n m)).memAllocated = true ↔ 1 < m) ∧
    (iterate_drop_weak (m - 1) (iterate_drop_strong n (mkRc n m))).deallocs = 1 ∧
    (iterate_drop_weak (m - 1) (iterate_drop_strong n (mkRc n m))).memAllocated = false ∧
    (iterate_drop_weak (m - 1) (iterate_drop_strong n (mkRc n m))).dtorRuns = 1 := by
  have hafter := after_strong_drops n m hn hm hnU hmU
  have hfinal := teardown_complete n m hn hm hnU hmU
  refine ⟨?_, ?_, ?_, ?_, ?_, ?_, ?_, ?_, ?_, ?_, ?_, ?_⟩
  · intro s hs
    unfold drop_fast_strong
    rw [if_neg hs]
  · intro s hs
    unfold drop_fast_strong
    rw [if_pos hs]
  · intro s hs
    unfold drop_fast_weak
    rw [if_neg hs]
  · intro s hs
    unfold drop_fast_weak
    rw [if_pos hs]
  · intro k hk
    rw [iterate_strong_upto k n m hk hnU]
    exact ⟨rfl, rfl, rfl⟩
  · rw [hafter]
    by_cases hm1 : m = 1
    · rw [if_pos hm1]
    · rw [if_neg hm1]
  · rw [hafter]
    by_cases hm1 : m = 1
    · rw [if_pos hm1]
    · rw [if_neg hm1]
  · rw [hafter]
    by_cases hm1 : m = 1
    · rw [if_pos hm1, hm1]
    · rw [if_neg hm1]
  · rw [hafter]
    by_cases hm1 : m = 1
    · rw [if_pos hm1]
      simp [hm1]
    · rw [if_neg hm1]
      simp only
      constructor
      · intro _; omega
      · intro _; trivial
  · rw [hfinal]
  · rw [hfinal]
  · rw [hfinal]

/-- Witness for C4 at the concrete spec scenario: two strong references
    (an Rc plus its clone) and one implicit weak-equivalent reference.
    The destructor has not run after the first drop, runs exactly once
    at the second, and the backing memory is freed at the same moment
    because the weak-equivalent count reaches zero. -/
theorem rc_two_phase_teardown_witness :
    (1 ≤ 2 ∧ 1 ≤ 1 ∧ 2 < USIZE ∧ 1 < USIZE) ∧
    (iterate_drop_strong 1 (mkRc 2 1)).dtorRuns = 0 ∧
    (iterate_drop_strong 1 (mkRc 2 1)).valueAlive = true ∧
    (iterate_drop_strong 2 (mkRc 2 1)).dtorRuns = 1 ∧
    (iterate_drop_strong 2 (mkRc 2 1)).valueAlive = false ∧
    (iterate_drop_weak 0 (iterate_drop_strong 2 (mkRc 2 1))).deallocs = 1 ∧
    (iterate_drop_weak 0 (iterate_drop_strong 2 (mkRc 2 1))).memAllocated = false := by
  have hU2 : 2 < USIZE := by unfold USIZE; norm_num
  have hU1 : 1 < USIZE := by unfold USIZE; norm_num
  have hmain := rc_two_phase_teardown 2 1 (by omega) (by omega) hU2 hU1
  refine ⟨⟨by omega, by omega, hU2, hU1⟩, ?_, ?_, ?_, ?_, ?_, ?_⟩
  · exact (hmain.2.2.2.2.1 1 (by omega)).1
  · exact (hmain.2.2.2.2.1 1 (by omega)).2.1
  · exact hmain.2.2.2.2.2.1
  · exact hmain.2.2.2.2.2.2.1
  · exact hmain.2.2.2.2.2.2.2.2.2.1
  · exact hmain.2.2.2.2.2.2.2.2.2.2.1

/-! Global storage slot, from global.rs. The atomic state machine has the
    states UNINIT (zero), WRITING (one) and INIT (two). A successful
    set_global_storage is the caller that wins the compare-exchange from
    UNINIT to WRITING, writes the slot and stores INIT; the trace model
    splits this into a beginSet event (the winning or failing
    compare-exchange together with the slot write) and a finishSet event
    (the store of INIT). Readers call global, which yields the stored
    backend only in state INIT and the NoOpStorage fallback otherwise. -/

/-- Identifier of the NoOpStorage fallback backend. -/
def noOpId : Nat := 0

structure GState where
  state : Nat
  slot : Nat
  deriving DecidableEq, Repr

/-- Initial state: uninitialized, the static GLOBAL holds NoOpStorage. -/
def g_init : GState := ⟨0, noOpId⟩

inductive GEvent where
  | beginSet (g : Nat)
  | finishSet
  | read
  deriving DecidableEq, Repr

/-- One step of the global slot state machine. -/
def g_step (s : GState) : GEvent → GState
  | .beginSet g => if s.state = 0 then ⟨1, g⟩ else s
  | .finishSet => if s.state = 1 then ⟨2, s.slot⟩ else s
  | .read => s

/-- Contribution of one event to the success count: a beginSet taken in
    state zero wins its compare-exchange, everything else does not. -/
def g_event_wins (s : GState) : GEvent → Nat
  | .beginSet _ => if s.state = 0 then 1 else 0
  | .finishSet => 0
  | .read => 0

/-- Number of winning compare-exchanges along a trace, counted from a
    given state. -/
def g_run_count : GState → List GEvent → Nat
  | _, [] => 0
  | s, e :: rest => g_event_wins s e + g_run_count (g_step s e) rest

/-- Translation of set_global_storage as one atomic step: fail unless the
    state is UNINIT, otherwise store the slot and reach INIT. -/
def set_global_storage (g : Nat) (s : GState) : Bool × GState :=
  if s.state ≠ 0 then (false, s) else (true, ⟨2, g⟩)

/-- Translation of the global accessor: the stored backend only once the
    state is INIT, the NoOpStorage fallback before that. -/
def global_read (s : GState) : Nat :=
  if s.state = 2 then s.slot else noOpId

/-- Translation of NoOpStorage allocate_nonempty: always an error. -/
def no_op_allocate_nonempty (L : Layout) : Except AllocErr MemoryBlock := .error ⟨L⟩

/-- Translation of the NoOpStorage allocate override: always an error,
    even for zero-size layouts. -/
def no_op_allocate (L : Layout) : Except AllocErr MemoryBlock := .error ⟨L⟩

theorem g_step_ne_zero (s : GState) (e : GEvent) (h : s.state ≠ 0) :
    (g_step s e).state ≠ 0 := by
  cases e with
  | beginSet g =>
    simp only [g_step]
    split
    · simp
    · exact h
  | finishSet =>
    simp only [g_step]
    split
    · simp
    · exact h
  | read => exact h

theorem g_count_zero_of_ne :
    ∀ (es : List GEvent) (s : GState), s.state ≠ 0 → g_run_count s es = 0 := by
  intro es
  induction es with
  | nil => intro s _; rfl
  | cons e rest ih =>
    intro s h
    rw [g_run_count]
    have hrest : g_run_count (g_step s e) rest = 0 := ih _ (g_step_ne_zero s e h)
    cases e with
    | beginSet g => simp only [g_event_wins]; rw [if_neg h, hrest]
    | finishSet => simp only [g_event_wins]; rw [hrest]
    | read => simp only [g_event_wins]; rw [hrest]

theorem g_count_le_one : ∀ (es : List GEvent) (s : GState), g_run_count s es ≤ 1 := by
  intro es
  induction es with
  | nil => intro s; simp [g_run_count]
  | cons e rest ih =>
    intro s
    rw [g_run_count]
    cases e with
    | beginSet g =>
      simp only [g_event_wins]
      by_cases h0 : s.state = 0
      · rw [if_pos h0]
        have hstep : (g_step s (.beginSet g)).state ≠ 0 := by
          simp only [g_step]
          rw [if_pos h0]
          simp
        rw [g_count_zero_of_ne rest _ hstep]
      · rw [if_neg h0]
        have := ih (g_step s (.beginSet g))
        omega
    | finishSet =>
      simp only [g_event_wins]
      have := ih (g_step s .finishSet)
      omega
    | read =>
      simp only [g_event_wins]
      have := ih (g_step s .read)
      omega

/-- C8: the global slot is settable at most once. Along any trace of the
    state machine at most one compare-exchange from UNINIT wins,
    set_global_storage returns false from every state past UNINIT and
    true exactly from UNINIT, the state can never return to UNINIT, a
    reader in any state other than INIT is served the NoOpStorage
    fallback, and the NoOpStorage allocation methods always return an
    error carrying the layout. -/
theorem global_slot_once_only (es : List GEvent) (g : Nat) :
    g_run_count g_init es ≤ 1 ∧
    (∀ s : GState, s.state ≠ 0 → g_run_count s es = 0) ∧
    (∀ (s : GState) (e : GEvent), s.state ≠ 0 → (g_step s e).state ≠ 0) ∧
    (∀ s : GState, s.state ≠ 0 → set_global_storage g s = (false, s)) ∧
    (∀ s : GState, s.state = 0 → set_global_storage g s = (true, ⟨2, g⟩)) ∧
    (∀ s : GState, s.state ≠ 2 → global_read s = noOpId) ∧
    (∀ L : Layout, no_op_allocate_nonempty L = .error ⟨L⟩ ∧
      no_op_allocate L = .error ⟨L⟩) := by
  refine ⟨g_count_le_one es g_init, fun s h => g_count_zero_of_ne es s h,
    g_step_ne_zero, ?_, ?_, ?_, fun L => ⟨rfl, rfl⟩⟩
  · intro s h
    unfold set_global_storage
    rw [if_pos h]
  · intro s h
    unfold set_global_storage
    rw [if_neg (by omega)]
  · intro s h
    unfold global_read
    rw [if_neg h]

/-- Witness for C8 on a concrete trace: a successful set, a second set
    attempt that fails, and reads; exactly one compare-exchange wins,
    and a read taken while the slot is still being written is served the
    NoOpStorage fallback. -/
theorem global_slot_once_only_witness :
    g_run_count g_init [.beginSet 5, .finishSet, .beginSet 7, .read] ≤ 1 ∧
    g_run_count g_init [.beginSet 5, .finishSet, .beginSet 7, .read] = 1 ∧
    set_global_storage 7 ⟨2, 5⟩ = (false, ⟨2, 5⟩) ∧
    set_global_storage 5 ⟨0, noOpId⟩ = (true, ⟨2, 5⟩) ∧
    global_read ⟨1, 5⟩ = noOpId ∧
    no_op_allocate ⟨3, 4⟩ = .error ⟨⟨3, 4⟩⟩ := by
  have hmain := global_slot_once_only [.beginSet 5, .finishSet, .beginSet 7, .read] 7
  refine ⟨hmain.1, rfl, hmain.2.2.2.1 ⟨2, 5⟩ (by decide), ?_, ?_, (hmain.2.2.2.2.2.2 ⟨3, 4⟩).2⟩
  · exact (global_slot_once_only [] 5).2.2.2.2.1 ⟨0, noOpId⟩ rfl
  · exact hmain.2.2.2.2.2.1 ⟨1, 5⟩ (by decide)

/-! Default trait methods over an arbitrary backend, from core_traits.rs,
    and the pad combinator, from pad.rs. A backend is a state type with
    allocate_nonempty, deallocate_nonempty and its dangling handle
    constructor; the instrumented wrapper counts every backend call. -/

structure Backend (σ : Type) where
  allocNE : σ → Layout → Except AllocErr (MemoryBlock × σ)
  deallocNE : σ → Nat → Layout → σ
  dangling : Nat → Nat

/-- Translation of the default Storage allocate: a layout of size zero
    yields the dangling handle for the requested alignment with size
    zero and does not touch the backend; otherwise allocate_nonempty
    runs. -/
def default_allocate {σ : Type} (M : Backend σ) (s : σ) (L : Layout) :
    Except AllocErr (MemoryBlock × σ) :=
  if L.size = 0 then .ok (⟨M.dangling L.align, 0⟩, s) else M.allocNE s L

/-- Translation of the default Storage deallocate: a layout of size zero
    is a no-op; otherwise deallocate_nonempty runs. -/
def default_deallocate {σ : Type} (M : Backend σ) (s : σ) (h : Nat) (L : Layout) : σ :=
  if L.size = 0 then s else M.deallocNE s h L

/-- Wrapper counting the calls that reach the backend. -/
def instrumented {σ : Type} (M : Backend σ) : Backend (σ × Nat) where
  allocNE := fun sc L =>
    match M.allocNE sc.fst L with
    | .error e => .error e
    | .ok p => .ok (p.fst, (p.snd, sc.snd + 1))
  deallocNE := fun sc h L => (M.deallocNE sc.fst h L, sc.snd + 1)
  dangling := M.dangling

/-- Translation of the pad function of pad.rs: raise the size and the
    alignment to the configured minima, then round the size up to a
    multiple of the alignment as pad_to_align does. -/
def pad_layout (SIZE ALIGN : Nat) (L : Layout) : Layout :=
  ⟨max L.size SIZE +
      (max L.align ALIGN - max L.size SIZE % max L.align ALIGN) % max L.align ALIGN,
    max L.align ALIGN⟩

/-- Translation of the Pad allocate override: pad the layout first; when
    the configured minimal SIZE is zero the padded layout may still be
    empty and the default allocate of the backend runs, but when SIZE is
    nonzero the padded layout is provably nonempty and allocate_nonempty
    of the backend is called directly, also for a zero-size request. -/
def pad_allocate {σ : Type} (SIZE ALIGN : Nat) (M : Backend σ) (s : σ) (L : Layout) :
    Except AllocErr (MemoryBlock × σ) :=
  if SIZE = 0 then default_allocate M s (pad_layout SIZE ALIGN L)
  else M.allocNE s (pad_layout SIZE ALIGN L)

/-- Concrete backend that returns handle 42 and the requested size, and
    counts its calls in its state. -/
def exactBackend : Backend Nat where
  allocNE := fun s L => .ok (⟨42, L.size⟩, s + 1)
  deallocNE := fun s _ _ => s + 1
  dangling := fun a => a

/-- C9 counterexample: the pad storage with minimal size one forwards a
    zero-size allocation to allocate_nonempty of its backend. The
    backend call count rises from zero to one, the returned handle is
    the backend handle and not the dangling sentinel, and the returned
    size is one, not zero. -/
theorem pad_zero_size_calls_backend :
    (⟨0, 1⟩ : Layout).size = 0 ∧
    pad_allocate 1 1 exactBackend 0 ⟨0, 1⟩ = .ok (⟨42, 1⟩, 1) ∧
    (42 : Nat) ≠ exactBackend.dangling (⟨0, 1⟩ : Layout).align ∧
    (⟨42, 1⟩ : MemoryBlock).size ≠ 0 ∧
    (1 : Nat) ≠ 0 := by
  refine ⟨rfl, rfl, by decide, by decide, by decide⟩

/-- C9 amended: for every storage that uses the default provided
    allocate and deallocate, a zero-size allocate returns the dangling
    sentinel for the requested alignment with size zero and performs no
    backend call, and a zero-size deallocate is a no-op that performs no
    backend call, so the round trip leaves the backend state and its
    call count unchanged. Storages that override these methods, such as
    the pad combinator with a nonzero minimal size or NoOpStorage, are
    exempt. -/
theorem default_zero_size_round_trip (σ : Type) (M : Backend σ) (s : σ) (c : Nat)
    (L : Layout) (hL : L.size = 0) (h : Nat) :
    default_allocate (instrumented M) (s, c) L = .ok (⟨M.dangling L.align, 0⟩, (s, c)) ∧
    default_deallocate (instrumented M) (s, c) h L = (s, c) := by
  unfold default_allocate default_deallocate
  rw [if_pos hL, if_pos hL]
  exact ⟨rfl, rfl⟩

/-- Witness for C9 at the concrete counting backend: a zero-size request
    of alignment 4 round-trips without touching the backend. -/
theorem default_zero_size_round_trip_witness :
    (⟨0, 4⟩ : Layout).size = 0 ∧
    default_allocate (instrumented exactBackend) (0, 0) ⟨0, 4⟩ =
      .ok (⟨exactBackend.dangling 4, 0⟩, (0, 0)) ∧
    default_deallocate (instrumented exactBackend) (0, 0) 9 ⟨0, 4⟩ = (0, 0) := by
  refine ⟨rfl, ?_, ?_⟩
  · exact (default_zero_size_round_trip Nat exactBackend 0 0 ⟨0, 4⟩ rfl 9).1
  · exact (default_zero_size_round_trip Nat exactBackend 0 0 ⟨0, 4⟩ rfl 9).2
